import Mathlib

/-!
Shallow embedding of `arch/arm/kernel/autosmp.c` (automatic CPU hotplug
controller) and verification of its specification claims.

The machine's CPUs are modelled as a `List Bool`: index `c` is CPU `c`,
the stored Bool is its online bit; all indices below the list's length
are the present CPUs.  Per-CPU current rates (`cpufreq_quick_get`) and
the primary core's maximum rate (`cpufreq_quick_get_max(0)`) are inputs
to the tick, supplied by the external cpufreq collaborator.  Unsigned
32-bit arithmetic is modelled on `Nat` with explicit `% 2^32` where the
C code can overflow.
-/

/-- Online bit of CPU `c` (`cpu_online(c)`); CPUs beyond the present
range are offline. -/
def cpu_online : List Bool → Nat → Bool
  | [], _ => false
  | b :: _, 0 => b
  | _ :: t, c + 1 => cpu_online t c

/-- `num_online_cpus()`: number of online CPUs. -/
def num_online : List Bool → Nat
  | [] => 0
  | b :: t => (if b then 1 else 0) + num_online t

/-- `UINT_MAX`, the initial value of `slow_rate` in `asmp_work_fn`. -/
def UINT_MAX : Nat := 4294967295

/-- Modulus of unsigned 32-bit arithmetic. -/
def UINT_MOD : Nat := 4294967296

/-- `struct asmp_param_struct`: the tunable parameters, each an
`unsigned int`. -/
structure AsmpParam where
  delay : Nat
  max_cpus : Nat
  min_cpus : Nat
  cpufreq_up : Nat
  cpufreq_down : Nat
  cycle_up : Nat
  cycle_down : Nat
deriving DecidableEq

/-- Global controller state: the `asmp_enabled` module parameter, the
parameter block, the online mask of the machine, and whether `asmp_work`
is queued on the workqueue. -/
structure AsmpState where
  enabled : Bool
  param : AsmpParam
  online : List Bool
  scheduled : Bool
deriving DecidableEq

/-- Result of one `asmp_work_fn` invocation: the updated state and the
`delay_jif` value handed to `queue_delayed_work`.  `delay_jif` is a
local variable that the function declares without an initialiser, so it
is `none` on any path that never assigns it. -/
structure TickResult where
  st : AsmpState
  delay_jif : Option Nat
deriving DecidableEq

/-- `msecs_to_jiffies`: external time-unit conversion.  No claim depends
on the unit, so it is modelled as the identity on milliseconds. -/
def msecs_to_jiffies (ms : Nat) : Nat := ms

/-- `cpu_up(c)`: external hotplug primitive, brings CPU `c` online
(no-op on a CPU that is not present, where the call fails). -/
def cpu_up (c : Nat) (o : List Bool) : List Bool := o.set c true

/-- `cpu_down(c)`: external hotplug primitive, takes CPU `c` offline. -/
def cpu_down (c : Nat) (o : List Bool) : List Bool := o.set c false

/-- The online CPU indices in increasing order: the iteration order of
`for_each_online_cpu`. -/
def online_cpus (o : List Bool) : List Nat :=
  (List.range o.length).filter (fun i => cpu_online o i)

/-- `cpumask_next_zero(0, cpu_online_mask)`: the smallest CPU index
strictly greater than 0 that is offline, or the number of present CPUs
when every non-primary CPU is online (an invalid CPU, on which `cpu_up`
fails). -/
def cpumask_next_zero (o : List Bool) : Nat :=
  match ((List.range o.length).drop 1).find? (fun i => !cpu_online o i) with
  | some c => c
  | none => o.length

/-- The `for_each_online_cpu` scan body of `asmp_work_fn` (lines 87-95):
accumulator is `(slow_cpu, slow_rate, fast_rate)`; for each online CPU
`c` with `c != 0`, if `rate <= slow_rate` record it as the slow CPU,
else if `rate > fast_rate` record its rate as the fast rate. -/
def asmp_scan (rates : Nat → Nat) : List Nat → Nat × Nat × Nat → Nat × Nat × Nat
  | [], acc => acc
  | c :: rest, (slow_cpu, slow_rate, fast_rate) =>
    if c ≠ 0 then
      if rates c ≤ slow_rate then
        asmp_scan rates rest (c, rates c, fast_rate)
      else if fast_rate < rates c then
        asmp_scan rates rest (slow_cpu, slow_rate, rates c)
      else
        asmp_scan rates rest (slow_cpu, slow_rate, fast_rate)
    else
      asmp_scan rates rest (slow_cpu, slow_rate, fast_rate)

/-- The scan run as `asmp_work_fn` runs it: over the online CPUs, with
`slow_cpu = 0`, `slow_rate = UINT_MAX`, `fast_rate = cpu0_rate`. -/
def asmp_scan_result (rates : Nat → Nat) (o : List Bool) : Nat × Nat × Nat :=
  asmp_scan rates (online_cpus o) (0, UINT_MAX, rates 0)

/-- The `slow_cpu` value after the scan. -/
def asmp_slow_cpu (rates : Nat → Nat) (o : List Bool) : Nat :=
  (asmp_scan_result rates o).1

/-- The `slow_rate` value after the scan and the post-loop adjustment
`if (cpu0_rate < slow_rate) slow_rate = cpu0_rate;` (lines 97-98). -/
def asmp_slow_rate (rates : Nat → Nat) (o : List Bool) : Nat :=
  let slow_rate := (asmp_scan_result rates o).2.1
  if rates 0 < slow_rate then rates 0 else slow_rate

/-- The `fast_rate` value after the scan. -/
def asmp_fast_rate (rates : Nat → Nat) (o : List Bool) : Nat :=
  (asmp_scan_result rates o).2.2

/-- `asmp_work_fn` (lines 64-119).  `max_rate` is the value returned by
`cpufreq_quick_get_max(0)` (0 when the read fails), `rates c` the value
returned by `cpufreq_quick_get(c)`.  Note that `cycle` is a local
variable: it starts at 0 and is incremented once, so it equals 1 at both
hysteresis checks on every invocation (the `cycle = 0` stores after an
action are dead).  `delay_jif` is only assigned on the enabled path, yet
`queue_delayed_work` runs unconditionally at the end. -/
def asmp_work_fn (max_rate : Nat) (rates : Nat → Nat) (s : AsmpState) : TickResult :=
  if s.enabled then
    let delay_jif := msecs_to_jiffies s.param.delay
    let up_rate := s.param.cpufreq_up * max_rate % UINT_MOD / 100
    let down_rate := s.param.cpufreq_down * max_rate % UINT_MOD / 100
    let nr_cpu_online := num_online s.online
    let slow_cpu := asmp_slow_cpu rates s.online
    let slow_rate := asmp_slow_rate rates s.online
    let fast_rate := asmp_fast_rate rates s.online
    let cycle : Nat := 0
    let cycle := cycle + 1
    let online' :=
      if up_rate < slow_rate then
        if nr_cpu_online < s.param.max_cpus ∧ s.param.cycle_up ≤ cycle then
          cpu_up (cpumask_next_zero s.online) s.online
        else s.online
      else if slow_cpu ≠ 0 ∧ fast_rate < down_rate then
        if s.param.min_cpus < nr_cpu_online ∧ s.param.cycle_down ≤ cycle then
          cpu_down slow_cpu s.online
        else s.online
      else s.online
    { st := { s with online := online', scheduled := true }, delay_jif := some delay_jif }
  else
    { st := { s with scheduled := true }, delay_jif := none }

/-- The `for_each_present_cpu` loop of `asmp_early_suspend` (lines
129-133): take each non-primary online CPU down while the online count
exceeds `min_cpus`; the count is re-read on every iteration. -/
def asmp_suspend_loop (m : Nat) : List Nat → List Bool → List Bool
  | [], o => o
  | c :: rest, o =>
    if c ≠ 0 ∧ cpu_online o c = true ∧ m < num_online o then
      asmp_suspend_loop m rest (cpu_down c o)
    else
      asmp_suspend_loop m rest o

/-- `asmp_early_suspend` (lines 121-137): if enabled, run the suspend
loop over all present CPUs, then cancel the delayed work. -/
def asmp_early_suspend (s : AsmpState) : AsmpState :=
  if s.enabled then
    { s with
      online := asmp_suspend_loop s.param.min_cpus (List.range s.online.length) s.online,
      scheduled := false }
  else s

/-- The `for_each_present_cpu` loop shared by `asmp_late_resume` (lines
147-151) and the disable path of `set_asmp_enabled` (lines 177-181):
bring each offline CPU up while the online count is below `max_cpus`. -/
def asmp_up_loop (mx : Nat) : List Nat → List Bool → List Bool
  | [], o => o
  | c :: rest, o =>
    if cpu_online o c = false ∧ num_online o < mx then
      asmp_up_loop mx rest (cpu_up c o)
    else
      asmp_up_loop mx rest o

/-- `asmp_late_resume` (lines 139-156): if enabled, run the up loop over
all present CPUs and re-queue the delayed work. -/
def asmp_late_resume (s : AsmpState) : AsmpState :=
  if s.enabled then
    { s with
      online := asmp_up_loop s.param.max_cpus (List.range s.online.length) s.online,
      scheduled := true }
  else s

/-- `set_asmp_enabled` (lines 164-186).  `val` is the result of
`param_set_bool` parsing the written string: `some b` stores `b` into
`asmp_enabled`, `none` is a parse failure that leaves it unchanged (the
function still runs the branch on the current value).  The enabled
branch queues the work; the disabled branch cancels it and runs the up
loop. -/
def set_asmp_enabled (val : Option Bool) (s : AsmpState) : AsmpState :=
  let s1 := { s with enabled := val.getD s.enabled }
  if s1.enabled then
    { s1 with scheduled := true }
  else
    { s1 with
      scheduled := false,
      online := asmp_up_loop s1.param.max_cpus (List.range s1.online.length) s1.online }

/-- `store_min_cpus` as produced by the `store_one` macro (lines
221-240): `input` is the result of `sscanf(buf, "%u", ...)` (`none` when
nothing parsed, giving `-EINVAL`); a parsed value is stored with no
range check. -/
def sysfs_store_min_cpus (input : Option Nat) (p : AsmpParam) : Except Unit AsmpParam :=
  match input with
  | none => Except.error ()
  | some n => Except.ok { p with min_cpus := n }

/-- `store_max_cpus` as produced by the `store_one` macro. -/
def sysfs_store_max_cpus (input : Option Nat) (p : AsmpParam) : Except Unit AsmpParam :=
  match input with
  | none => Except.error ()
  | some n => Except.ok { p with max_cpus := n }

/-- `store_delay` as produced by the `store_one` macro. -/
def sysfs_store_delay (input : Option Nat) (p : AsmpParam) : Except Unit AsmpParam :=
  match input with
  | none => Except.error ()
  | some n => Except.ok { p with delay := n }

/-- Modelled from the spec (§4.2, step 2, for comparison with the code):
`slow_rate = min(samples)` over all online cores including the
primary. -/
def spec_slow_rate (rates : Nat → Nat) (o : List Bool) : Nat :=
  match (online_cpus o).map rates with
  | [] => rates 0
  | x :: xs => xs.foldl min x

/-- The non-primary online CPU indices in increasing order. -/
def nonprimary_online_cpus (o : List Bool) : List Nat :=
  (List.range o.length).filter (fun i => decide (i ≠ 0) && cpu_online o i)

/-- Modelled from the spec (§4.2, step 2, for comparison with the code):
`fast_rate = max(samples)` over all non-primary online cores, defaulting
to the primary's own rate when no non-primary core is online. -/
def spec_fast_rate (rates : Nat → Nat) (o : List Bool) : Nat :=
  match (nonprimary_online_cpus o).map rates with
  | [] => rates 0
  | x :: xs => xs.foldl max x

/-- The maximum sampled rate over all online cores, seeded with the
primary's rate; used as an upper bound on the code's `fast_rate`. -/
def max_rate_over_online (rates : Nat → Nat) (o : List Bool) : Nat :=
  ((online_cpus o).map rates).foldl max (rates 0)

/-! ### Basic lemmas about the online mask -/

theorem cpu_online_lt_length : ∀ {o : List Bool} {c : Nat},
    cpu_online o c = true → c < o.length := by
  intro o
  induction o with
  | nil => intro c h; simp [cpu_online] at h
  | cons b t ih =>
    intro c h
    cases c with
    | zero => exact Nat.succ_pos _
    | succ c =>
      simp only [cpu_online] at h
      exact Nat.succ_lt_succ (ih h)

theorem set_of_length_le : ∀ {o : List Bool} {c : Nat} (b : Bool),
    o.length ≤ c → o.set c b = o := by
  intro o
  induction o with
  | nil => intro c b _; rfl
  | cons x t ih =>
    intro c b h
    cases c with
    | zero => exact absurd h (by simp)
    | succ c =>
      simp only [List.set]
      rw [ih b (Nat.le_of_succ_le_succ h)]

theorem cpu_online_set_ne : ∀ {o : List Bool} {c j : Nat} (b : Bool),
    c ≠ j → cpu_online (o.set c b) j = cpu_online o j := by
  intro o
  induction o with
  | nil => intro c j b _; rfl
  | cons x t ih =>
    intro c j b hne
    cases c with
    | zero =>
      cases j with
      | zero => exact absurd rfl hne
      | succ j => rfl
    | succ c =>
      cases j with
      | zero => rfl
      | succ j =>
        simp only [List.set, cpu_online]
        exact ih b (fun h => hne (by rw [h]))

theorem cpu_online_set_self : ∀ {o : List Bool} {c : Nat} (b : Bool),
    c < o.length → cpu_online (o.set c b) c = b := by
  intro o
  induction o with
  | nil => intro c b h; exact absurd h (Nat.not_lt_zero c)
  | cons x t ih =>
    intro c b h
    cases c with
    | zero => rfl
    | succ c =>
      simp only [List.set, cpu_online]
      exact ih b (Nat.lt_of_succ_lt_succ h)

theorem num_online_set_false : ∀ {o : List Bool} {c : Nat},
    cpu_online o c = true → num_online (o.set c false) + 1 = num_online o := by
  intro o
  induction o with
  | nil => intro c h; simp [cpu_online] at h
  | cons x t ih =>
    intro c h
    cases c with
    | zero =>
      have hx : x = true := h
      subst hx
      simp [List.set, num_online]
      omega
    | succ c =>
      simp only [cpu_online] at h
      have h2 := ih h
      simp only [List.set, num_online]
      omega

theorem num_online_set_true : ∀ {o : List Bool} {c : Nat},
    cpu_online o c = false → c < o.length →
    num_online (o.set c true) = num_online o + 1 := by
  intro o
  induction o with
  | nil => intro c _ h; exact absurd h (Nat.not_lt_zero c)
  | cons x t ih =>
    intro c h hlt
    cases c with
    | zero =>
      have hx : x = false := h
      subst hx
      simp [List.set, num_online]
      omega
    | succ c =>
      simp only [cpu_online] at h
      have h2 := ih h (Nat.lt_of_succ_lt_succ hlt)
      simp only [List.set, num_online]
      omega

theorem num_online_set_true_ge (o : List Bool) (c : Nat) :
    num_online o ≤ num_online (o.set c true) := by
  induction o generalizing c with
  | nil => exact Nat.le_refl 0
  | cons x t ih =>
    cases c with
    | zero => simp only [List.set, num_online]; cases x <;> simp
    | succ c =>
      simp only [List.set, num_online]
      exact Nat.add_le_add_left (ih c) _

theorem num_online_set_true_le (o : List Bool) (c : Nat) :
    num_online (o.set c true) ≤ num_online o + 1 := by
  induction o generalizing c with
  | nil => exact Nat.zero_le 1
  | cons x t ih =>
    cases c with
    | zero =>
      simp only [List.set, num_online]
      cases x <;> simp +arith
    | succ c =>
      simp only [List.set, num_online]
      have := ih c
      omega

theorem num_online_set_false_le (o : List Bool) (c : Nat) :
    num_online (o.set c false) ≤ num_online o := by
  induction o generalizing c with
  | nil => exact Nat.le_refl 0
  | cons x t ih =>
    cases c with
    | zero => simp only [List.set, num_online]; cases x <;> simp
    | succ c =>
      simp only [List.set, num_online]
      exact Nat.add_le_add_left (ih c) _

theorem num_online_set_false_ge (o : List Bool) (c : Nat) :
    num_online o ≤ num_online (o.set c false) + 1 := by
  induction o generalizing c with
  | nil => exact Nat.zero_le 1
  | cons x t ih =>
    cases c with
    | zero =>
      simp only [List.set, num_online]
      cases x <;> simp +arith
    | succ c =>
      simp only [List.set, num_online]
      have := ih c
      omega

theorem num_online_le_length : ∀ (o : List Bool), num_online o ≤ o.length := by
  intro o
  induction o with
  | nil => exact Nat.le_refl 0
  | cons x t ih =>
    simp only [num_online, List.length_cons]
    cases x <;> simp <;> omega

theorem cpu_online_set_true_mono {o : List Bool} {j : Nat} (c : Nat)
    (h : cpu_online o j = true) : cpu_online (o.set c true) j = true := by
  by_cases hc : c = j
  · subst hc
    by_cases hlt : c < o.length
    · exact cpu_online_set_self true hlt
    · rw [set_of_length_le true (Nat.le_of_not_lt hlt)]; exact h
  · rw [cpu_online_set_ne true hc]; exact h

theorem cpu_online_set_false_mono {o : List Bool} {j : Nat} (c : Nat)
    (h : cpu_online o j = false) : cpu_online (o.set c false) j = false := by
  by_cases hc : c = j
  · subst hc
    by_cases hlt : c < o.length
    · exact cpu_online_set_self false hlt
    · rw [set_of_length_le false (Nat.le_of_not_lt hlt)]; exact h
  · rw [cpu_online_set_ne false hc]; exact h

theorem num_online_all_online : ∀ {o : List Bool},
    (∀ i, i < o.length → cpu_online o i = true) → num_online o = o.length := by
  intro o
  induction o with
  | nil => intro _; rfl
  | cons x t ih =>
    intro h
    have hx : x = true := h 0 (Nat.succ_pos _)
    subst hx
    have ht : ∀ i, i < t.length → cpu_online t i = true := by
      intro i hi
      exact h (i + 1) (Nat.succ_lt_succ hi)
    simp [num_online, ih ht]
    omega

theorem num_online_all_offline : ∀ {o : List Bool},
    (∀ i, cpu_online o i = false) → num_online o = 0 := by
  intro o
  induction o with
  | nil => intro _; rfl
  | cons x t ih =>
    intro h
    have hx : x = false := h 0
    subst hx
    have ht : ∀ i, cpu_online t i = false := fun i => h (i + 1)
    simp [num_online, ih ht]

theorem num_online_only_zero {o : List Bool}
    (h0 : cpu_online o 0 = true) (hrest : ∀ i, i ≠ 0 → cpu_online o i = false) :
    num_online o = 1 := by
  cases o with
  | nil => simp [cpu_online] at h0
  | cons x t =>
    have hx : x = true := h0
    subst hx
    have ht : ∀ i, cpu_online t i = false := by
      intro i
      exact hrest (i + 1) (Nat.succ_ne_zero i)
    simp [num_online, num_online_all_offline ht]

/-! ### Lemmas about the suspend loop -/

theorem asmp_suspend_loop_length (m : Nat) : ∀ (l : List Nat) (o : List Bool),
    (asmp_suspend_loop m l o).length = o.length := by
  intro l
  induction l with
  | nil => intro o; rfl
  | cons c rest ih =>
    intro o
    by_cases hc : c ≠ 0 ∧ cpu_online o c = true ∧ m < num_online o
    · simp only [asmp_suspend_loop, if_pos hc]
      rw [ih (cpu_down c o), cpu_down]
      exact List.length_set o c false
    · simp only [asmp_suspend_loop, if_neg hc]
      exact ih o

theorem asmp_suspend_loop_of_le {m : Nat} : ∀ (l : List Nat) (o : List Bool),
    num_online o ≤ m → asmp_suspend_loop m l o = o := by
  intro l
  induction l with
  | nil => intro o _; rfl
  | cons c rest ih =>
    intro o h
    have hcond : ¬(c ≠ 0 ∧ cpu_online o c = true ∧ m < num_online o) := by
      intro hc
      obtain ⟨_, _, hlt⟩ := hc
      omega
    simp only [asmp_suspend_loop, if_neg hcond]
    exact ih o h

theorem asmp_suspend_loop_zero (m : Nat) : ∀ (l : List Nat) (o : List Bool),
    cpu_online o 0 = true → cpu_online (asmp_suspend_loop m l o) 0 = true := by
  intro l
  induction l with
  | nil => intro o h; exact h
  | cons c rest ih =>
    intro o h
    by_cases hc : c ≠ 0 ∧ cpu_online o c = true ∧ m < num_online o
    · simp only [asmp_suspend_loop, if_pos hc]
      apply ih
      rw [cpu_down, cpu_online_set_ne false hc.1]
      exact h
    · simp only [asmp_suspend_loop, if_neg hc]
      exact ih o h

theorem asmp_suspend_loop_offline (m : Nat) : ∀ (l : List Nat) (o : List Bool) (j : Nat),
    cpu_online o j = false → cpu_online (asmp_suspend_loop m l o) j = false := by
  intro l
  induction l with
  | nil => intro o j h; exact h
  | cons c rest ih =>
    intro o j h
    by_cases hc : c ≠ 0 ∧ cpu_online o c = true ∧ m < num_online o
    · simp only [asmp_suspend_loop, if_pos hc]
      exact ih (cpu_down c o) j (cpu_online_set_false_mono c h)
    · simp only [asmp_suspend_loop, if_neg hc]
      exact ih o j h

theorem asmp_suspend_loop_floor {m : Nat} : ∀ (l : List Nat) (o : List Bool),
    cpu_online o 0 = true →
    (∀ i, i ≠ 0 → cpu_online o i = true → i ∈ l) →
    1 ≤ m → m ≤ num_online o →
    num_online (asmp_suspend_loop m l o) = m := by
  intro l
  induction l with
  | nil =>
    intro o h0 hmem hm1 hle
    have hoff : ∀ i, i ≠ 0 → cpu_online o i = false := by
      intro i hi
      cases hon : cpu_online o i with
      | false => rfl
      | true => exact absurd (hmem i hi hon) (List.not_mem_nil i)
    have h1 : num_online o = 1 := num_online_only_zero h0 hoff
    have h2 : asmp_suspend_loop m [] o = o := rfl
    rw [h2, h1]
    omega
  | cons c rest ih =>
    intro o h0 hmem hm1 hle
    by_cases hc : c ≠ 0 ∧ cpu_online o c = true ∧ m < num_online o
    · obtain ⟨hc0, hcon, hlt⟩ := hc
      have hclen : c < o.length := cpu_online_lt_length hcon
      simp only [asmp_suspend_loop, if_pos (And.intro hc0 (And.intro hcon hlt))]
      apply ih (cpu_down c o)
      · rw [cpu_down, cpu_online_set_ne false hc0]
        exact h0
      · intro i hi0 hion
        have hic : i ≠ c := by
          intro he
          subst he
          rw [cpu_down, cpu_online_set_self false hclen] at hion
          exact Bool.false_ne_true hion
        have hio : cpu_online o i = true := by
          rw [cpu_down, cpu_online_set_ne false (fun h => hic h.symm)] at hion
          exact hion
        rcases List.mem_cons.mp (hmem i hi0 hio) with he | hr
        · exact absurd he hic
        · exact hr
      · exact hm1
      · have h3 := num_online_set_false hcon
        rw [cpu_down]
        omega
    · simp only [asmp_suspend_loop, if_neg hc]
      push_neg at hc
      by_cases hnum : m < num_online o
      · apply ih o h0 ?_ hm1 hle
        intro i hi0 hion
        rcases List.mem_cons.mp (hmem i hi0 hion) with he | hr
        · exfalso
          subst he
          exact absurd hnum (Nat.not_lt_of_le (hc hi0 hion))
        · exact hr
      · rw [asmp_suspend_loop_of_le rest o (Nat.le_of_not_lt hnum)]
        omega

theorem asmp_suspend_loop_post (m : Nat) : ∀ (l : List Nat) (o : List Bool),
    ∀ c ∈ l, c = 0 ∨ cpu_online (asmp_suspend_loop m l o) c = false ∨
      num_online (asmp_suspend_loop m l o) ≤ m := by
  intro l
  induction l with
  | nil => intro o c hc; exact absurd hc (List.not_mem_nil c)
  | cons c rest ih =>
    intro o c' hc'
    by_cases hcond : c ≠ 0 ∧ cpu_online o c = true ∧ m < num_online o
    · simp only [asmp_suspend_loop, if_pos hcond]
      rcases List.mem_cons.mp hc' with he | hr
      · subst he
        right; left
        apply asmp_suspend_loop_offline
        rw [cpu_down, cpu_online_set_self false (cpu_online_lt_length hcond.2.1)]
      · exact ih (cpu_down c o) c' hr
    · simp only [asmp_suspend_loop, if_neg hcond]
      by_cases hnum : m < num_online o
      · rcases List.mem_cons.mp hc' with he | hr
        · subst he
          push_neg at hcond
          by_cases hc0 : c' = 0
          · exact Or.inl hc0
          · right; left
            apply asmp_suspend_loop_offline
            cases hon : cpu_online o c' with
            | false => rfl
            | true => exact absurd hnum (Nat.not_lt_of_le (hcond hc0 hon))
        · exact ih o c' hr
      · rw [asmp_suspend_loop_of_le rest o (Nat.le_of_not_lt hnum)]
        right; right
        exact Nat.le_of_not_lt hnum

theorem asmp_suspend_loop_fixed (m : Nat) : ∀ (l : List Nat) (o : List Bool),
    (∀ c ∈ l, c = 0 ∨ cpu_online o c = false ∨ num_online o ≤ m) →
    asmp_suspend_loop m l o = o := by
  intro l
  induction l with
  | nil => intro o _; rfl
  | cons c rest ih =>
    intro o h
    have hcond : ¬(c ≠ 0 ∧ cpu_online o c = true ∧ m < num_online o) := by
      intro hc
      rcases h c (List.mem_cons_self c rest) with h0 | hoff | hle
      · exact hc.1 h0
      · rw [hc.2.1] at hoff
        exact absurd hoff (by simp)
      · exact absurd hc.2.2 (Nat.not_lt_of_le hle)
    simp only [asmp_suspend_loop, if_neg hcond]
    apply ih
    intro c' hc'
    exact h c' (List.mem_cons_of_mem c hc')

/-! ### Lemmas about the bring-online loop -/

theorem asmp_up_loop_length (mx : Nat) : ∀ (l : List Nat) (o : List Bool),
    (asmp_up_loop mx l o).length = o.length := by
  intro l
  induction l with
  | nil => intro o; rfl
  | cons c rest ih =>
    intro o
    by_cases hc : cpu_online o c = false ∧ num_online o < mx
    · simp only [asmp_up_loop, if_pos hc]
      rw [ih (cpu_up c o), cpu_up]
      exact List.length_set o c true
    · simp only [asmp_up_loop, if_neg hc]
      exact ih o

theorem asmp_up_loop_of_ge {mx : Nat} : ∀ (l : List Nat) (o : List Bool),
    mx ≤ num_online o → asmp_up_loop mx l o = o := by
  intro l
  induction l with
  | nil => intro o _; rfl
  | cons c rest ih =>
    intro o h
    have hcond : ¬(cpu_online o c = false ∧ num_online o < mx) := by
      intro hc
      exact absurd hc.2 (Nat.not_lt_of_le h)
    simp only [asmp_up_loop, if_neg hcond]
    exact ih o h

theorem asmp_up_loop_online_mono (mx : Nat) : ∀ (l : List Nat) (o : List Bool) (j : Nat),
    cpu_online o j = true → cpu_online (asmp_up_loop mx l o) j = true := by
  intro l
  induction l with
  | nil => intro o j h; exact h
  | cons c rest ih =>
    intro o j h
    by_cases hc : cpu_online o c = false ∧ num_online o < mx
    · simp only [asmp_up_loop, if_pos hc]
      exact ih (cpu_up c o) j (cpu_online_set_true_mono c h)
    · simp only [asmp_up_loop, if_neg hc]
      exact ih o j h

theorem asmp_up_loop_fills {mx : Nat} : ∀ (l : List Nat) (o : List Bool),
    (∀ i, i < o.length → cpu_online o i = false → i ∈ l) →
    (∀ c ∈ l, c < o.length) →
    num_online o ≤ mx →
    num_online (asmp_up_loop mx l o) = min mx o.length := by
  intro l
  induction l with
  | nil =>
    intro o hmem _ hle
    have hall : ∀ i, i < o.length → cpu_online o i = true := by
      intro i hi
      cases hon : cpu_online o i with
      | true => rfl
      | false => exact absurd (hmem i hi hon) (List.not_mem_nil i)
    have h1 : num_online o = o.length := num_online_all_online hall
    have h2 : asmp_up_loop mx [] o = o := rfl
    rw [h2, h1]
    omega
  | cons c rest ih =>
    intro o hmem hlen hle
    by_cases hc : cpu_online o c = false ∧ num_online o < mx
    · obtain ⟨hcoff, hlt⟩ := hc
      have hclen : c < o.length := hlen c (List.mem_cons_self c rest)
      simp only [asmp_up_loop, if_pos (And.intro hcoff hlt)]
      have hres := ih (cpu_up c o) ?hmem ?hlen ?hle
      · rw [hres, cpu_up, List.length_set]
      case hmem =>
        intro i hi hioff
        have hic : i ≠ c := by
          intro he
          subst he
          rw [cpu_up, cpu_online_set_self true hclen] at hioff
          exact absurd hioff (by simp)
        have hio : cpu_online o i = false := by
          rw [cpu_up, cpu_online_set_ne true (fun h => hic h.symm)] at hioff
          exact hioff
        rw [cpu_up, List.length_set] at hi
        rcases List.mem_cons.mp (hmem i hi hio) with he | hr
        · exact absurd he hic
        · exact hr
      case hlen =>
        intro c' hc'
        rw [cpu_up, List.length_set]
        exact hlen c' (List.mem_cons_of_mem c hc')
      case hle =>
        rw [cpu_up, num_online_set_true hcoff hclen]
        omega
    · simp only [asmp_up_loop, if_neg hc]
      by_cases hnum : num_online o < mx
      · have hcon : cpu_online o c = true := by
          cases hon : cpu_online o c with
          | true => rfl
          | false => exact absurd (And.intro hon hnum) hc
        apply ih o ?_ ?_ hle
        · intro i hi hioff
          rcases List.mem_cons.mp (hmem i hi hioff) with he | hr
          · exfalso
            subst he
            rw [hcon] at hioff
            exact absurd hioff (by simp)
          · exact hr
        · intro c' hc'
          exact hlen c' (List.mem_cons_of_mem c hc')
      · have heq : num_online o = mx := Nat.le_antisymm hle (Nat.le_of_not_lt hnum)
        rw [asmp_up_loop_of_ge rest o (Nat.le_of_eq heq.symm)]
        have := num_online_le_length o
        omega

theorem asmp_up_loop_post (mx : Nat) : ∀ (l : List Nat) (o : List Bool),
    (∀ c ∈ l, c < o.length) →
    ∀ c ∈ l, cpu_online (asmp_up_loop mx l o) c = true ∨
      mx ≤ num_online (asmp_up_loop mx l o) := by
  intro l
  induction l with
  | nil => intro o _ c hc; exact absurd hc (List.not_mem_nil c)
  | cons c rest ih =>
    intro o hlen c' hc'
    by_cases hcond : cpu_online o c = false ∧ num_online o < mx
    · simp only [asmp_up_loop, if_pos hcond]
      rcases List.mem_cons.mp hc' with he | hr
      · subst he
        left
        apply asmp_up_loop_online_mono
        rw [cpu_up, cpu_online_set_self true (hlen c' (List.mem_cons_self c' rest))]
      · apply ih (cpu_up c o) ?_ c' hr
        intro i hi
        rw [cpu_up, List.length_set]
        exact hlen i (List.mem_cons_of_mem c hi)
    · simp only [asmp_up_loop, if_neg hcond]
      by_cases hnum : num_online o < mx
      · have hcon : cpu_online o c = true := by
          cases hon : cpu_online o c with
          | true => rfl
          | false => exact absurd (And.intro hon hnum) hcond
        rcases List.mem_cons.mp hc' with he | hr
        · subst he
          left
          exact asmp_up_loop_online_mono mx rest o c' hcon
        · apply ih o ?_ c' hr
          intro i hi
          exact hlen i (List.mem_cons_of_mem c hi)
      · rw [asmp_up_loop_of_ge rest o (Nat.le_of_not_lt hnum)]
        right
        exact Nat.le_of_not_lt hnum

theorem asmp_up_loop_fixed (mx : Nat) : ∀ (l : List Nat) (o : List Bool),
    (∀ c ∈ l, cpu_online o c = true ∨ mx ≤ num_online o) →
    asmp_up_loop mx l o = o := by
  intro l
  induction l with
  | nil => intro o _; rfl
  | cons c rest ih =>
    intro o h
    have hcond : ¬(cpu_online o c = false ∧ num_online o < mx) := by
      intro hc
      rcases h c (List.mem_cons_self c rest) with hon | hge
      · rw [hon] at hc
        exact absurd hc.1 (by simp)
      · exact absurd hc.2 (Nat.not_lt_of_le hge)
    simp only [asmp_up_loop, if_neg hcond]
    apply ih
    intro c' hc'
    exact h c' (List.mem_cons_of_mem c hc')

/-! ### Lemmas about the sampling scan -/

theorem asmp_scan_slow (rates : Nat → Nat) : ∀ (l : List Nat) (sc sr fr : Nat),
    (asmp_scan rates l (sc, sr, fr)).2.1 =
      l.foldl (fun a c => if c = 0 then a else min a (rates c)) sr := by
  intro l
  induction l with
  | nil => intro sc sr fr; rfl
  | cons c rest ih =>
    intro sc sr fr
    by_cases hc : c ≠ 0
    · simp only [asmp_scan, if_pos hc, List.foldl_cons, if_neg (fun h => hc h)]
      by_cases hr : rates c ≤ sr
      · rw [if_pos hr, ih, Nat.min_eq_right hr]
      · have hlt : sr < rates c := Nat.lt_of_not_le hr
        rw [if_neg hr, Nat.min_eq_left (Nat.le_of_lt hlt)]
        by_cases hf : fr < rates c
        · rw [if_pos hf, ih]
        · rw [if_neg hf, ih]
    · have hc0 : c = 0 := by omega
      subst hc0
      have h1 : asmp_scan rates (0 :: rest) (sc, sr, fr) =
          asmp_scan rates rest (sc, sr, fr) := by
        simp only [asmp_scan, if_neg hc]
      rw [h1, List.foldl_cons]
      simpa using ih sc sr fr

theorem asmp_scan_fast_ge (rates : Nat → Nat) : ∀ (l : List Nat) (sc sr fr : Nat),
    fr ≤ (asmp_scan rates l (sc, sr, fr)).2.2 := by
  intro l
  induction l with
  | nil => intro sc sr fr; exact Nat.le_refl fr
  | cons c rest ih =>
    intro sc sr fr
    by_cases hc : c ≠ 0
    · simp only [asmp_scan, if_pos hc]
      by_cases hr : rates c ≤ sr
      · rw [if_pos hr]; exact ih c (rates c) fr
      · rw [if_neg hr]
        by_cases hf : fr < rates c
        · rw [if_pos hf]
          exact Nat.le_trans (Nat.le_of_lt hf) (ih sc sr (rates c))
        · rw [if_neg hf]; exact ih sc sr fr
    · simp only [asmp_scan, if_neg hc]
      exact ih sc sr fr

theorem asmp_scan_fast_le (rates : Nat → Nat) {B : Nat} : ∀ (l : List Nat) (sc sr fr : Nat),
    fr ≤ B → (∀ c ∈ l, rates c ≤ B) →
    (asmp_scan rates l (sc, sr, fr)).2.2 ≤ B := by
  intro l
  induction l with
  | nil => intro sc sr fr h _; exact h
  | cons c rest ih =>
    intro sc sr fr h hmem
    have hrest : ∀ c' ∈ rest, rates c' ≤ B := by
      intro c' hc'
      exact hmem c' (List.mem_cons_of_mem c hc')
    by_cases hc : c ≠ 0
    · simp only [asmp_scan, if_pos hc]
      by_cases hr : rates c ≤ sr
      · rw [if_pos hr]; exact ih c (rates c) fr h hrest
      · rw [if_neg hr]
        by_cases hf : fr < rates c
        · rw [if_pos hf]
          exact ih sc sr (rates c) (hmem c (List.mem_cons_self c rest)) hrest
        · rw [if_neg hf]; exact ih sc sr fr h hrest
    · simp only [asmp_scan, if_neg hc]
      exact ih sc sr fr h hrest

theorem foldl_min_rates_comm (rates : Nat → Nat) : ∀ (l : List Nat) (a b : Nat),
    l.foldl (fun x c => min x (rates c)) (min a b) =
      min a (l.foldl (fun x c => min x (rates c)) b) := by
  intro l
  induction l with
  | nil => intro a b; rfl
  | cons c rest ih =>
    intro a b
    simp only [List.foldl_cons]
    rw [Nat.min_assoc, ih]

theorem foldl_slow_eq (rates : Nat → Nat) : ∀ (l : List Nat) (a : Nat),
    (∀ c ∈ l, c ≠ 0) →
    l.foldl (fun x c => if c = 0 then x else min x (rates c)) a =
      l.foldl (fun x c => min x (rates c)) a := by
  intro l
  induction l with
  | nil => intro a _; rfl
  | cons c rest ih =>
    intro a h
    have hc : c ≠ 0 := h c (List.mem_cons_self c rest)
    simp only [List.foldl_cons, if_neg hc]
    apply ih
    intro c' hc'
    exact h c' (List.mem_cons_of_mem c hc')

theorem online_cpus_cons {o : List Bool} (h : cpu_online o 0 = true) :
    ∃ rest, online_cpus o = 0 :: rest ∧ ∀ c ∈ rest, c ≠ 0 := by
  cases o with
  | nil => simp [cpu_online] at h
  | cons b t =>
    have hlen : (b :: t).length = t.length + 1 := rfl
    refine ⟨(((List.range t.length).map Nat.succ).filter
      (fun i => cpu_online (b :: t) i)), ?_, ?_⟩
    · unfold online_cpus
      rw [hlen, List.range_succ_eq_map, List.filter_cons_of_pos]
      exact h
    · intro c hc
      have hmem := (List.mem_filter.mp hc).1
      obtain ⟨k, _, hk⟩ := List.mem_map.mp hmem
      intro h0
      rw [h0] at hk
      exact Nat.succ_ne_zero k hk

theorem le_foldl_max : ∀ (l : List Nat) (a : Nat), a ≤ l.foldl max a := by
  intro l
  induction l with
  | nil => intro a; exact Nat.le_refl a
  | cons x rest ih =>
    intro a
    simp only [List.foldl_cons]
    exact Nat.le_trans (Nat.le_max_left a x) (ih (max a x))

theorem mem_le_foldl_max : ∀ (l : List Nat) (a x : Nat), x ∈ l → x ≤ l.foldl max a := by
  intro l
  induction l with
  | nil => intro a x hx; exact absurd hx (List.not_mem_nil x)
  | cons y rest ih =>
    intro a x hx
    rcases List.mem_cons.mp hx with he | hr
    · subst he
      simp only [List.foldl_cons]
      exact Nat.le_trans (Nat.le_max_right a x) (le_foldl_max rest (max a x))
    · simp only [List.foldl_cons]
      exact ih (max a y) x hr

theorem asmp_slow_rate_eq_spec {rates : Nat → Nat} {o : List Bool}
    (h0 : cpu_online o 0 = true) (hr : rates 0 ≤ UINT_MAX) :
    asmp_slow_rate rates o = spec_slow_rate rates o := by
  obtain ⟨rest, hoc, hne⟩ := online_cpus_cons h0
  have hscan : (asmp_scan_result rates o).2.1 =
      rest.foldl (fun x c => min x (rates c)) UINT_MAX := by
    unfold asmp_scan_result
    rw [hoc]
    have hstep : asmp_scan rates (0 :: rest) (0, UINT_MAX, rates 0) =
        asmp_scan rates rest (0, UINT_MAX, rates 0) := by
      simp only [asmp_scan, if_neg (by omega : ¬(0 : Nat) ≠ 0)]
    rw [hstep, asmp_scan_slow, foldl_slow_eq rates rest UINT_MAX hne]
  have hmin : asmp_slow_rate rates o =
      min (rates 0) ((asmp_scan_result rates o).2.1) := by
    unfold asmp_slow_rate
    by_cases hlt : rates 0 < (asmp_scan_result rates o).2.1
    · rw [if_pos hlt, Nat.min_eq_left (Nat.le_of_lt hlt)]
    · rw [if_neg hlt, Nat.min_eq_right (Nat.le_of_not_lt hlt)]
  rw [hmin, hscan, ← foldl_min_rates_comm, Nat.min_eq_left hr]
  unfold spec_slow_rate
  rw [hoc]
  simp only [List.map_cons, List.foldl_map]

theorem asmp_fast_rate_bounds (rates : Nat → Nat) (o : List Bool) :
    rates 0 ≤ asmp_fast_rate rates o ∧
      asmp_fast_rate rates o ≤ max_rate_over_online rates o := by
  constructor
  · exact asmp_scan_fast_ge rates (online_cpus o) 0 UINT_MAX (rates 0)
  · apply asmp_scan_fast_le rates (online_cpus o) 0 UINT_MAX (rates 0)
    · exact le_foldl_max _ (rates 0)
    · intro c hc
      exact mem_le_foldl_max _ (rates 0) (rates c)
        (List.mem_map_of_mem rates hc)

/-! ### Unfolding the tick -/

theorem asmp_work_fn_eq (mr : Nat) (rates : Nat → Nat) (s : AsmpState)
    (h : s.enabled = true) :
    asmp_work_fn mr rates s =
      { st := { s with
          online :=
            if s.param.cpufreq_up * mr % UINT_MOD / 100 < asmp_slow_rate rates s.online then
              if num_online s.online < s.param.max_cpus ∧ s.param.cycle_up ≤ 1 then
                cpu_up (cpumask_next_zero s.online) s.online
              else s.online
            else if asmp_slow_cpu rates s.online ≠ 0 ∧
                asmp_fast_rate rates s.online <
                  s.param.cpufreq_down * mr % UINT_MOD / 100 then
              if s.param.min_cpus < num_online s.online ∧ s.param.cycle_down ≤ 1 then
                cpu_down (asmp_slow_cpu rates s.online) s.online
              else s.online
            else s.online,
          scheduled := true },
        delay_jif := some (msecs_to_jiffies s.param.delay) } := by
  simp only [asmp_work_fn, h, if_true, Nat.zero_add]

theorem asmp_work_fn_disabled (mr : Nat) (rates : Nat → Nat) (s : AsmpState)
    (h : s.enabled = false) :
    asmp_work_fn mr rates s =
      { st := { s with scheduled := true }, delay_jif := none } := by
  simp only [asmp_work_fn, h, Bool.false_eq_true, if_false]

/-! ### Concrete fixtures for witnesses and counterexamples -/

/-- The parameter defaults from the C initializer (with
`CONFIG_NR_CPUS = 4`): delay 100, max 4, min 1, thresholds 90/60,
cycles 1/1. -/
def asmp_param_default : AsmpParam :=
  { delay := 100, max_cpus := 4, min_cpus := 1, cpufreq_up := 90,
    cpufreq_down := 60, cycle_up := 1, cycle_down := 1 }

/-- Scenario B parameters: `cycle_down = 2`, two present cores. -/
def asmp_param_B : AsmpParam :=
  { delay := 100, max_cpus := 2, min_cpus := 1, cpufreq_up := 90,
    cpufreq_down := 60, cycle_up := 1, cycle_down := 2 }

/-- Scenario B state: enabled, both cores online. -/
def st_B : AsmpState :=
  { enabled := true, param := asmp_param_B, online := [true, true], scheduled := true }

/-- Scenario B rates: every core at rate 500 (idle against
down limit 600 of max rate 1000). -/
def rates_B : Nat → Nat := fun _ => 500

/-! ### Claims -/

/-- Claim C1: the claim says the up/down streak counters persist in
runtime state between tick invocations, so that with `cycle_down = 2`
two consecutive idle ticks produce exactly one offline transition
(Scenario B).  In the code, `cycle` is a local variable of
`asmp_work_fn`, reset on every invocation; it equals 1 at every
hysteresis check, so with `cycle_down = 2` no scale-down ever happens.
This theorem evaluates the code at Scenario B: the down condition holds
on both ticks (`slow_cpu = 1`, `fast_rate = 500 < 600`), yet after two
consecutive idle ticks both cores are still online, where the claim
requires core 1 to be offline after the second tick. -/
theorem cycle_counter_not_persistent_eval :
    asmp_slow_cpu rates_B st_B.online = 1 ∧
      asmp_fast_rate rates_B st_B.online = 500 ∧
      asmp_param_B.cpufreq_down * 1000 % UINT_MOD / 100 = 600 ∧
      (asmp_work_fn 1000 rates_B st_B).st.online = [true, true] ∧
      (asmp_work_fn 1000 rates_B ((asmp_work_fn 1000 rates_B st_B).st)).st.online =
        [true, true] := by
  decide

/-- Claim C5: for every tick run while enabled, if
`min_cpus ≤ online count ≤ max_cpus` holds before the tick then it holds
after it: the single scale-up is guarded by `online < max_cpus` and the
single scale-down by `online > min_cpus`. -/
theorem tick_preserves_core_bounds (mr : Nat) (rates : Nat → Nat) (s : AsmpState)
    (hen : s.enabled = true)
    (hmin : s.param.min_cpus ≤ num_online s.online)
    (hmax : num_online s.online ≤ s.param.max_cpus) :
    s.param.min_cpus ≤ num_online (asmp_work_fn mr rates s).st.online ∧
      num_online (asmp_work_fn mr rates s).st.online ≤ s.param.max_cpus := by
  rw [asmp_work_fn_eq mr rates s hen]
  dsimp only
  split_ifs with h1 h2 h3 h4
  · -- scale-up taken: guarded by online < max_cpus
    rw [cpu_up]
    constructor
    · exact Nat.le_trans hmin (num_online_set_true_ge s.online _)
    · have hub := num_online_set_true_le s.online (cpumask_next_zero s.online)
      omega
  · exact ⟨hmin, hmax⟩
  · -- scale-down taken: guarded by online > min_cpus
    rw [cpu_down]
    constructor
    · have hlb := num_online_set_false_ge s.online (asmp_slow_cpu rates s.online)
      omega
    · exact Nat.le_trans (num_online_set_false_le s.online _) hmax
  · exact ⟨hmin, hmax⟩
  · exact ⟨hmin, hmax⟩

/-- Witness for `tick_preserves_core_bounds` at a concrete saturated
state: defaults, three cores online out of four, all rates 950 of max
1000. -/
theorem tick_preserves_core_bounds_wit :
    asmp_param_default.min_cpus ≤
      num_online (asmp_work_fn 1000 (fun _ => 950)
        { enabled := true, param := asmp_param_default,
          online := [true, true, true, false], scheduled := true }).st.online ∧
      num_online (asmp_work_fn 1000 (fun _ => 950)
        { enabled := true, param := asmp_param_default,
          online := [true, true, true, false], scheduled := true }).st.online ≤
        asmp_param_default.max_cpus :=
  tick_preserves_core_bounds 1000 (fun _ => 950)
    { enabled := true, param := asmp_param_default,
      online := [true, true, true, false], scheduled := true }
    (by decide) (by decide) (by decide)

/-- Claim C7: the primary core (index 0) is never taken offline by any
operation: the tick's scale-down targets `slow_cpu`, guarded by
`slow_cpu != 0`; the suspend loop guards each `cpu_down` with
`cpu != 0`; resume and the enable switch only bring cores up.  So a
state with core 0 online stays that way across every operation. -/
theorem primary_core_never_offlined (mr : Nat) (rates : Nat → Nat)
    (v : Option Bool) (s : AsmpState) (h : cpu_online s.online 0 = true) :
    cpu_online (asmp_work_fn mr rates s).st.online 0 = true ∧
      cpu_online (asmp_early_suspend s).online 0 = true ∧
      cpu_online (asmp_late_resume s).online 0 = true ∧
      cpu_online (set_asmp_enabled v s).online 0 = true := by
  refine ⟨?_, ?_, ?_, ?_⟩
  · by_cases hen : s.enabled = true
    · rw [asmp_work_fn_eq mr rates s hen]
      dsimp only
      split_ifs with h1 h2 h3 h4
      · exact cpu_online_set_true_mono _ h
      · exact h
      · rw [cpu_down, cpu_online_set_ne false h3.1]
        exact h
      · exact h
      · exact h
    · have hf : s.enabled = false := by
        cases he : s.enabled
        · rfl
        · exact absurd he hen
      rw [asmp_work_fn_disabled mr rates s hf]
      exact h
  · unfold asmp_early_suspend
    split_ifs with hen
    · exact asmp_suspend_loop_zero _ _ _ h
    · exact h
  · unfold asmp_late_resume
    split_ifs with hen
    · exact asmp_up_loop_online_mono _ _ _ _ h
    · exact h
  · unfold set_asmp_enabled
    dsimp only
    split_ifs with hen
    · exact h
    · exact asmp_up_loop_online_mono _ _ _ _ h

/-- Witness for `primary_core_never_offlined` at a concrete state with
four online cores, idle rates, and a disable write. -/
theorem primary_core_never_offlined_wit :
    cpu_online (asmp_work_fn 1000 (fun _ => 100)
      { enabled := true, param := asmp_param_default,
        online := [true, true, true, true], scheduled := true }).st.online 0 = true ∧
      cpu_online (asmp_early_suspend
        { enabled := true, param := asmp_param_default,
          online := [true, true, true, true], scheduled := true }).online 0 = true ∧
      cpu_online (asmp_late_resume
        { enabled := true, param := asmp_param_default,
          online := [true, true, true, true], scheduled := true }).online 0 = true ∧
      cpu_online (set_asmp_enabled (some false)
        { enabled := true, param := asmp_param_default,
          online := [true, true, true, true], scheduled := true }).online 0 = true :=
  primary_core_never_offlined 1000 (fun _ => 100) (some false)
    { enabled := true, param := asmp_param_default,
      online := [true, true, true, true], scheduled := true }
    (by decide)

/-- Claim C10: whenever `asmp_enabled` is false at tick entry, the tick
still unconditionally re-queues itself, and the delay it passes is the
never-assigned local `delay_jif` — modelled as `none`, the undefined
value. -/
theorem disabled_tick_requeues_undefined_delay (mr : Nat) (rates : Nat → Nat)
    (s : AsmpState) (h : s.enabled = false) :
    (asmp_work_fn mr rates s).st.scheduled = true ∧
      (asmp_work_fn mr rates s).delay_jif = none := by
  rw [asmp_work_fn_disabled mr rates s h]
  exact ⟨rfl, rfl⟩

/-- Witness for `disabled_tick_requeues_undefined_delay` at a concrete
disabled state. -/
theorem disabled_tick_requeues_undefined_delay_wit :
    (asmp_work_fn 1000 (fun _ => 500)
      { enabled := false, param := asmp_param_default,
        online := [true, true], scheduled := false }).st.scheduled = true ∧
      (asmp_work_fn 1000 (fun _ => 500)
        { enabled := false, param := asmp_param_default,
          online := [true, true], scheduled := false }).delay_jif = none :=
  disabled_tick_requeues_undefined_delay 1000 (fun _ => 500)
    { enabled := false, param := asmp_param_default,
      online := [true, true], scheduled := false }
    (by decide)

/-- Concrete suspend counterexample state: `min_cpus = 2`, four cores
online, enabled. -/
def st_C2 : AsmpState :=
  { enabled := true,
    param := { asmp_param_default with min_cpus := 2 },
    online := [true, true, true, true], scheduled := true }

/-- Claim C2 counterexample: the claim says a suspend signal takes every
core except the primary offline regardless of `min_cores`, leaving
exactly one core online.  With `min_cpus = 2` and four cores online the
code's suspend loop stops at the floor: two cores remain online (cores 0
and 3), refuting the claim. -/
theorem suspend_not_single_core_cex :
    num_online (asmp_early_suspend st_C2).online = 2 ∧
      num_online (asmp_early_suspend st_C2).online ≠ 1 ∧
      cpu_online (asmp_early_suspend st_C2).online 3 = true := by
  decide

/-- Claim C2 amended: on a suspend signal while enabled, each non-primary
core is taken offline only while the online count still exceeds
`min_cpus` — suspend respects the floor rather than overriding it.  With
core 0 online and `1 ≤ min_cpus ≤ online count`, the count after suspend
equals `min_cpus` (so it is 1 only when `min_cpus = 1`). -/
theorem suspend_respects_min_floor (s : AsmpState)
    (hen : s.enabled = true) (h0 : cpu_online s.online 0 = true)
    (hm1 : 1 ≤ s.param.min_cpus) (hle : s.param.min_cpus ≤ num_online s.online) :
    num_online (asmp_early_suspend s).online = s.param.min_cpus := by
  unfold asmp_early_suspend
  rw [if_pos hen]
  dsimp only
  apply asmp_suspend_loop_floor _ _ h0 ?_ hm1 hle
  intro i _ hion
  exact List.mem_range.mpr (cpu_online_lt_length hion)

/-- Witness for `suspend_respects_min_floor` at the concrete
counterexample state: the suspended count equals `min_cpus = 2`. -/
theorem suspend_respects_min_floor_wit :
    num_online (asmp_early_suspend st_C2).online = st_C2.param.min_cpus :=
  suspend_respects_min_floor st_C2 (by decide) (by decide) (by decide) (by decide)

/-- Concrete tick state for the max-rate read failure: enabled, defaults,
two of four cores online. -/
def st_C3 : AsmpState :=
  { enabled := true, param := asmp_param_default,
    online := [true, true, false, false], scheduled := true }

/-- Claim C3 counterexample: the claim says that when the primary core's
maximum rate cannot be read the tick aborts and performs no hotplug
action.  The code never checks the read: with `max_rate = 0` (the
failure value of `cpufreq_quick_get_max`) both limits compute to 0, any
positive rate satisfies the scale-up test, and the tick brings core 2
online — a hotplug action on the failure path. -/
theorem max_rate_zero_tick_acts_cex :
    num_online (asmp_work_fn 0 (fun _ => 500) st_C3).st.online = 3 ∧
      (asmp_work_fn 0 (fun _ => 500) st_C3).st.online ≠ st_C3.online := by
  decide

/-- Claim C3 amended: when the primary core's maximum rate reads as 0
(the failure value), the tick does not abort: it still re-queues itself
and may scale up (the up limit is 0), but it never scales down on that
tick — the down limit is 0 and no rate is below it — so the online count
never decreases on a failed-read tick. -/
theorem max_rate_zero_no_scale_down (rates : Nat → Nat) (s : AsmpState)
    (hen : s.enabled = true) :
    (asmp_work_fn 0 rates s).st.scheduled = true ∧
      num_online s.online ≤ num_online (asmp_work_fn 0 rates s).st.online := by
  rw [asmp_work_fn_eq 0 rates s hen]
  dsimp only
  refine ⟨rfl, ?_⟩
  split_ifs with h1 h2 h3 h4
  · rw [cpu_up]
    exact num_online_set_true_ge s.online _
  · exact Nat.le_refl _
  · exfalso
    have hz : s.param.cpufreq_down * 0 % UINT_MOD / 100 = 0 := by simp
    rw [hz] at h3
    exact Nat.not_lt_zero _ h3.2
  · exact Nat.le_refl _
  · exact Nat.le_refl _

/-- Witness for `max_rate_zero_no_scale_down` at the concrete failure
state. -/
theorem max_rate_zero_no_scale_down_wit :
    (asmp_work_fn 0 (fun _ => 500) st_C3).st.scheduled = true ∧
      num_online st_C3.online ≤
        num_online (asmp_work_fn 0 (fun _ => 500) st_C3).st.online :=
  max_rate_zero_no_scale_down (fun _ => 500) st_C3 (by decide)

/-- Rates exhibiting the fast-rate mismatch: primary at 900, others at
100. -/
def rates_C4 : Nat → Nat := fun i => if i = 0 then 900 else 100

/-- Claim C4 counterexample: the claim says `fast_rate` equals the
maximum sampled rate over the non-primary online cores (primary's rate
only as a default when none exist).  With the primary at 900 and core 1
at 100, the maximum non-primary rate is 100, but the code's `fast_rate`
is 900: it is seeded with the primary's rate, and core 1 is routed to
the slow-tracking branch (`rate <= slow_rate`), never to the
fast-tracking one. -/
theorem fast_rate_spec_mismatch_cex :
    asmp_fast_rate rates_C4 [true, true] = 900 ∧
      spec_fast_rate rates_C4 [true, true] = 100 ∧
      asmp_fast_rate rates_C4 [true, true] ≠ spec_fast_rate rates_C4 [true, true] := by
  decide

/-- Claim C4 amended: `slow_rate` does equal the minimum sampled rate
over all online cores including the primary; `fast_rate`, however, is
only bounded: it always includes the primary's own rate as a lower bound
and never exceeds the maximum sampled rate over all online cores, but it
can under-report the non-primary maximum (a core scanned while its rate
does not exceed the running minimum is never considered for
`fast_rate`). -/
theorem sample_aggregation_amended (rates : Nat → Nat) (o : List Bool)
    (h0 : cpu_online o 0 = true) (hr : rates 0 ≤ UINT_MAX) :
    asmp_slow_rate rates o = spec_slow_rate rates o ∧
      rates 0 ≤ asmp_fast_rate rates o ∧
      asmp_fast_rate rates o ≤ max_rate_over_online rates o :=
  ⟨asmp_slow_rate_eq_spec h0 hr,
    (asmp_fast_rate_bounds rates o).1, (asmp_fast_rate_bounds rates o).2⟩

/-- Witness for `sample_aggregation_amended` at the mismatch fixture. -/
theorem sample_aggregation_amended_wit :
    asmp_slow_rate rates_C4 [true, true] = spec_slow_rate rates_C4 [true, true] ∧
      rates_C4 0 ≤ asmp_fast_rate rates_C4 [true, true] ∧
      asmp_fast_rate rates_C4 [true, true] ≤ max_rate_over_online rates_C4 [true, true] :=
  sample_aggregation_amended rates_C4 [true, true] (by decide) (by decide)

/-- Claim C6 counterexample: the claim says out-of-range parameter
writes (min_cores 0, max_cores above the present core count, delay 0)
are rejected with the prior value retained.  The `store_one` stores
perform no range check: each of these writes is accepted and stored. -/
theorem store_accepts_out_of_range_cex :
    sysfs_store_min_cpus (some 0) asmp_param_default =
      Except.ok { asmp_param_default with min_cpus := 0 } ∧
      sysfs_store_max_cpus (some 100) asmp_param_default =
        Except.ok { asmp_param_default with max_cpus := 100 } ∧
      sysfs_store_delay (some 0) asmp_param_default =
        Except.ok { asmp_param_default with delay := 0 } ∧
      ({ asmp_param_default with min_cpus := 0 }).min_cpus ≠
        asmp_param_default.min_cpus :=
  ⟨rfl, rfl, rfl, by decide⟩

/-- Claim C6 amended: the config boundary rejects exactly the
non-numeric writes (`sscanf` parses nothing, `-EINVAL` is returned and
the prior value is retained); every successfully parsed unsigned value —
including out-of-range ones such as `min_cpus = 0`, `max_cpus` above the
present core count, or `delay = 0` — is stored unconditionally. -/
theorem store_rejects_only_parse_failures (n : Nat) (p : AsmpParam) :
    sysfs_store_min_cpus none p = Except.error () ∧
      sysfs_store_max_cpus none p = Except.error () ∧
      sysfs_store_delay none p = Except.error () ∧
      sysfs_store_min_cpus (some n) p = Except.ok { p with min_cpus := n } ∧
      sysfs_store_max_cpus (some n) p = Except.ok { p with max_cpus := n } ∧
      sysfs_store_delay (some n) p = Except.ok { p with delay := n } :=
  ⟨rfl, rfl, rfl, rfl, rfl, rfl⟩

/-- Disable counterexample state: `max_cpus = 1` while two cores are
online; disabling brings nobody up yet leaves the count above
`min(max_cpus, present)`. -/
def st_C8 : AsmpState :=
  { enabled := true,
    param := { asmp_param_default with max_cpus := 1 },
    online := [true, true], scheduled := true }

/-- Claim C8 counterexample: the claim says that after disabling, the
online count equals `min(max_cores, present_count)` unconditionally.
When the online count already exceeds `max_cpus` (here 2 online,
`max_cpus = 1`, 2 present), the disable path's up loop does nothing and
the count stays 2, not `min(1, 2) = 1`. -/
theorem disable_restore_cex :
    num_online (set_asmp_enabled (some false) st_C8).online = 2 ∧
      min st_C8.param.max_cpus st_C8.online.length = 1 ∧
      num_online (set_asmp_enabled (some false) st_C8).online ≠
        min st_C8.param.max_cpus st_C8.online.length := by
  decide

/-- Claim C8 amended: after `set_asmp_enabled` parses a disable write,
provided the online count at that moment does not exceed `max_cpus`, the
disable path brings cores online until the count equals
`min(max_cpus, present_count)` — full capacity up to the ceiling. -/
theorem disable_restores_capacity (s : AsmpState)
    (hle : num_online s.online ≤ s.param.max_cpus) :
    num_online (set_asmp_enabled (some false) s).online =
      min s.param.max_cpus s.online.length := by
  unfold set_asmp_enabled
  dsimp only [Option.getD]
  rw [if_neg (by simp)]
  dsimp only
  apply asmp_up_loop_fills
  · intro i hi _
    exact List.mem_range.mpr hi
  · intro c hc
    exact List.mem_range.mp hc
  · exact hle

/-- Witness for `disable_restores_capacity`: `max_cpus = 2`, one of
three cores online; disabling brings the count to `min(2, 3) = 2`. -/
theorem disable_restores_capacity_wit :
    num_online (set_asmp_enabled (some false)
      { enabled := true,
        param := { asmp_param_default with max_cpus := 2 },
        online := [true, false, false], scheduled := true }).online =
      min ({ asmp_param_default with max_cpus := 2 } : AsmpParam).max_cpus
        ([true, false, false] : List Bool).length :=
  disable_restores_capacity
    { enabled := true,
      param := { asmp_param_default with max_cpus := 2 },
      online := [true, false, false], scheduled := true }
    (by decide)

/-- One application of `asmp_late_resume` reaches a fixpoint: after the
up loop, every present CPU is online or the count has reached
`max_cpus`, so a second resume changes nothing. -/
theorem asmp_late_resume_idem (s : AsmpState) :
    asmp_late_resume (asmp_late_resume s) = asmp_late_resume s := by
  by_cases hen : s.enabled = true
  · have hs1 : asmp_late_resume s =
        { s with
          online := asmp_up_loop s.param.max_cpus
            (List.range s.online.length) s.online,
          scheduled := true } := by
      unfold asmp_late_resume
      rw [if_pos hen]
    rw [hs1]
    unfold asmp_late_resume
    rw [if_pos hen]
    dsimp only
    rw [asmp_up_loop_length]
    have hfix : asmp_up_loop s.param.max_cpus (List.range s.online.length)
        (asmp_up_loop s.param.max_cpus (List.range s.online.length) s.online) =
        asmp_up_loop s.param.max_cpus (List.range s.online.length) s.online := by
      apply asmp_up_loop_fixed
      intro c hc
      exact asmp_up_loop_post s.param.max_cpus (List.range s.online.length)
        s.online (fun i hi => List.mem_range.mp hi) c hc
    rw [hfix]
  · have h2 : asmp_late_resume s = s := by
      unfold asmp_late_resume
      rw [if_neg hen]
    rw [h2, h2]

/-- One application of `asmp_early_suspend` reaches a fixpoint: after
the suspend loop, every present CPU is the primary, offline, or the
count has dropped to `min_cpus`, so a second suspend changes nothing. -/
theorem asmp_early_suspend_idem (s : AsmpState) :
    asmp_early_suspend (asmp_early_suspend s) = asmp_early_suspend s := by
  by_cases hen : s.enabled = true
  · have hs1 : asmp_early_suspend s =
        { s with
          online := asmp_suspend_loop s.param.min_cpus
            (List.range s.online.length) s.online,
          scheduled := false } := by
      unfold asmp_early_suspend
      rw [if_pos hen]
    rw [hs1]
    unfold asmp_early_suspend
    rw [if_pos hen]
    dsimp only
    rw [asmp_suspend_loop_length]
    have hfix : asmp_suspend_loop s.param.min_cpus (List.range s.online.length)
        (asmp_suspend_loop s.param.min_cpus (List.range s.online.length) s.online) =
        asmp_suspend_loop s.param.min_cpus (List.range s.online.length) s.online := by
      apply asmp_suspend_loop_fixed
      intro c hc
      exact asmp_suspend_loop_post s.param.min_cpus
        (List.range s.online.length) s.online c hc
    rw [hfix]
  · have h2 : asmp_early_suspend s = s := by
      unfold asmp_early_suspend
      rw [if_neg hen]
    rw [h2, h2]

/-- Claim C9: the resume callback is idempotent — issuing resume twice
in a row yields the same observable state (online mask and scheduled
flag) as issuing it once — and likewise for suspend: repeated signals
while already in the target state are no-ops. -/
theorem power_callbacks_idempotent (s : AsmpState) :
    asmp_late_resume (asmp_late_resume s) = asmp_late_resume s ∧
      asmp_early_suspend (asmp_early_suspend s) = asmp_early_suspend s :=
  ⟨asmp_late_resume_idem s, asmp_early_suspend_idem s⟩
